import Mathlib

/-!
# Verification of the relative-date resolver (`parseReservationDate`)

Shallow embedding of `src/skills/restaurant-reservations/vapi-caller.mjs`,
function `parseReservationDate`, and proofs of the specification claims
about it.

Modelling conventions:

* A JavaScript `Date` produced by `new Date(y, m, d)` (midnight, local time)
  is modelled by a `CivilDate` record holding the *normalized* civil triple
  `(year, month, day)` with `month ∈ [0, 11]` (JS convention) and
  `day ∈ [1, daysInMonth]`.  JS normalization of out-of-range month/day
  arguments (excess months carry into following years, excess days into
  following months) is performed explicitly by `mkDate`.
* Comparison of two such dates by timestamp (`targetDate < today` in the
  source) is, for midnight dates, exactly lexicographic comparison of the
  civil triples; it is modelled by `dateLT`.
* `Date.prototype.getDay` is modelled by `getDay`, Sakamoto's formula for
  the proleptic-Gregorian day of week (0 = Sunday, as in JS).
* `setDate(getDate() + n)` is modelled by `addDays`, and
  `setFullYear(getFullYear() + 1)` by rebuilding via `mkDate` (which
  renormalizes, e.g. Feb 29 of a leap year becomes Mar 1 in a non-leap
  year, as JS does).
* Strings are handled at ASCII fidelity: `toLowerCase()` is modelled by
  `jsLowerChar` and `trim()` / regex `\s` by `isSpaceChar` over the ASCII
  whitespace characters.  The anchored regexes of the source are modelled
  by deterministic matchers over `List Char`; for these particular
  regexes, greedy matching without backtracking accepts exactly the same
  inputs with the same captures (argued at each matcher).
* The ambient clock (`new Date()` truncated to the day) is made an
  explicit `today : CivilDate` parameter, as §9 of the spec directs for
  testability; `now.getFullYear()` is `today.year`.
-/

/- ## Characters and strings -/

/-- `String.prototype.toLowerCase` at ASCII fidelity: map A-Z to a-z. -/
def jsLowerChar (c : Char) : Char :=
  if 'A' ≤ c ∧ c ≤ 'Z' then Char.ofNat (c.toNat + 32) else c

/-- The ASCII whitespace characters matched by `trim()` and regex `\s`. -/
def isSpaceChar (c : Char) : Bool :=
  c = ' ' || c = '\t' || c = '\n' || c = '\r' || c = '\x0b' || c = '\x0c'

/-- `trim()`: drop whitespace from both ends. -/
def trimChars (l : List Char) : List Char :=
  ((l.dropWhile isSpaceChar).reverse.dropWhile isSpaceChar).reverse

/-- `dateInput.toLowerCase().trim()` as a list of characters. -/
def normChars (s : String) : List Char :=
  trimChars (s.data.map jsLowerChar)

/- ## Civil calendar -/

/-- A calendar date as JS `Date` presents it: `month` is 0-based. -/
structure CivilDate where
  year : Int
  month : Nat
  day : Nat
  deriving DecidableEq

/-- Gregorian leap year, as JS `Date` computes month lengths. -/
def isLeap (y : Int) : Bool :=
  decide (y % 4 = 0) && (!decide (y % 100 = 0) || decide (y % 400 = 0))

/-- Length of 0-based month `m` of year `y`.  Only `m ≤ 11` is ever used
(months are normalized first); the catch-all keeps the function total. -/
def daysInMonth (y : Int) (m : Nat) : Nat :=
  match m with
  | 0 => 31
  | 1 => if isLeap y then 29 else 28
  | 2 => 31
  | 3 => 30
  | 4 => 31
  | 5 => 30
  | 6 => 31
  | 7 => 31
  | 8 => 30
  | 9 => 31
  | 10 => 30
  | _ => 31

theorem daysInMonth_pos (y : Int) (m : Nat) : 1 ≤ daysInMonth y m := by
  unfold daysInMonth
  split <;> first | omega | (split <;> omega)

theorem daysInMonth_le_31 (y : Int) (m : Nat) : daysInMonth y m ≤ 31 := by
  unfold daysInMonth
  split <;> first | omega | (split <;> omega)

theorem daysInMonth_ge_28 (y : Int) (m : Nat) : 28 ≤ daysInMonth y m := by
  unfold daysInMonth
  split <;> first | omega | (split <;> omega)

/-- Carry an overlarge day-of-month forward into following months (and
years), as JS `Date` normalization does. -/
def fixDay (y : Int) (m : Nat) (d : Nat) : CivilDate :=
  if d ≤ daysInMonth y m then ⟨y, m, d⟩
  else
    fixDay (if m = 11 then y + 1 else y) (if m = 11 then 0 else m + 1)
      (d - daysInMonth y m)
termination_by d
decreasing_by
  have h1 := daysInMonth_pos y m
  omega

/-- `new Date(y, m, d)` for the argument ranges arising in this file
(`m ≥ -1`, `d ≥ 0`): normalize the month by floor-division, then the day.
A day of `0` is the last day of the preceding month. -/
def mkDate (y m : Int) (d : Nat) : CivilDate :=
  let y1 := y + m / 12
  let m1 := (m % 12).toNat
  if d = 0 then
    if m1 = 0 then ⟨y1 - 1, 11, 31⟩
    else ⟨y1, m1 - 1, daysInMonth y1 (m1 - 1)⟩
  else fixDay y1 m1 d

/-- `t.setDate(t.getDate() + n)` for `n ≥ 0`. -/
def addDays (t : CivilDate) (n : Nat) : CivilDate :=
  fixDay t.year t.month (t.day + n)

/-- JS `Date` comparison (`<` on timestamps); for midnight civil dates this
is lexicographic order on (year, month, day). -/
def dateLT (a b : CivilDate) : Prop :=
  a.year < b.year ∨
    (a.year = b.year ∧ (a.month < b.month ∨ (a.month = b.month ∧ a.day < b.day)))

instance (a b : CivilDate) : Decidable (dateLT a b) := by
  unfold dateLT; infer_instance

/-- Non-strict counterpart of `dateLT`. -/
def dateLE (a b : CivilDate) : Prop := dateLT a b ∨ a = b

instance (a b : CivilDate) : Decidable (dateLE a b) := by
  unfold dateLE; infer_instance

/-- The normalization invariant of a `CivilDate`. -/
def ValidDate (t : CivilDate) : Prop :=
  t.month < 12 ∧ 1 ≤ t.day ∧ t.day ≤ daysInMonth t.year t.month

instance (t : CivilDate) : Decidable (ValidDate t) := by
  unfold ValidDate; infer_instance

/-- The calendar successor of a valid date (specification-level "plus one
day", used to state what `addDays t 1` computes). -/
def nextDay (t : CivilDate) : CivilDate :=
  if t.day < daysInMonth t.year t.month then ⟨t.year, t.month, t.day + 1⟩
  else if t.month = 11 then ⟨t.year + 1, 0, 1⟩
  else ⟨t.year, t.month + 1, 1⟩

/- ## Day of week (Sakamoto's formula; 0 = Sunday, as JS `getDay`) -/

/-- Sakamoto's month offsets for 0-based months. -/
def monthTable (m : Nat) : Nat :=
  match m with
  | 0 => 0
  | 1 => 3
  | 2 => 2
  | 3 => 5
  | 4 => 0
  | 5 => 3
  | 6 => 5
  | 7 => 1
  | 8 => 4
  | 9 => 6
  | 10 => 2
  | _ => 4

/-- The pre-`mod 7` value of Sakamoto's formula, linear in `d`. -/
def wlin (y : Int) (m : Nat) (d : Int) : Int :=
  let yy := if m < 2 then y - 1 else y
  yy + yy / 4 - yy / 100 + yy / 400 + (monthTable m : Int) + d

/-- `Date.prototype.getDay`: 0 = Sunday … 6 = Saturday. -/
def getDay (t : CivilDate) : Nat :=
  (wlin t.year t.month (t.day : Int) % 7).toNat

/- ## Phrase matching (embedding of the source regexes) -/

/-- Remove a literal, character-for-character. `some r` iff `l = p ++ r`. -/
def stripPrefixCh : List Char → List Char → Option (List Char)
  | [], l => some l
  | _ :: _, [] => none
  | p :: ps, c :: cs => if p = c then stripPrefixCh ps cs else none

/-- Index of an exact match in a list of tokens (as `Array.indexOf` over
the `days` array combined with the anchored alternation). -/
def findIndexCh (toks : List (List Char)) (l : List Char) : Option Nat :=
  match toks with
  | [] => none
  | t :: rest =>
    if t = l then some 0 else (findIndexCh rest l).map (· + 1)

/-- The `days` array of the source, lowercase, index 0 = sunday. -/
def dayTokens : List (List Char) :=
  ["sunday".data, "monday".data, "tuesday".data, "wednesday".data,
   "thursday".data, "friday".data, "saturday".data]

/-- `/^(next\s+)?(sunday|monday|tuesday|wednesday|thursday|friday|saturday)$/i`
on the lowercased, trimmed input, returning (`isNext`, weekday index).
An input passing the anchored test is either exactly a weekday name or
`"next"`, one or more whitespace characters, and a weekday name, and the
unanchored `match` on such an input recovers exactly these two groups. -/
def matchWeekdayPhrase (l : List Char) : Option (Bool × Nat) :=
  match findIndexCh dayTokens l with
  | some i => some (false, i)
  | none =>
    match stripPrefixCh "next".data l with
    | none => none
    | some rest =>
      match rest with
      | [] => none
      | c :: cs =>
        if isSpaceChar c then
          (findIndexCh dayTokens (cs.dropWhile isSpaceChar)).map (fun i => (true, i))
        else none

/-- `/^this\s+(sunday|...|saturday)$/i` on the lowercased, trimmed input. -/
def matchThisPhrase (l : List Char) : Option Nat :=
  match stripPrefixCh "this".data l with
  | none => none
  | some rest =>
    match rest with
    | [] => none
    | c :: cs =>
      if isSpaceChar c then findIndexCh dayTokens (cs.dropWhile isSpaceChar)
      else none

/-- The month alternation of the source regex, in alternation order, each
token paired with its value in the `months` lookup object. -/
def monthAssoc : List (List Char × Nat) :=
  [("january".data, 0), ("february".data, 1), ("march".data, 2),
   ("april".data, 3), ("may".data, 4), ("june".data, 5), ("july".data, 6),
   ("august".data, 7), ("september".data, 8), ("october".data, 9),
   ("november".data, 10), ("december".data, 11),
   ("jan".data, 0), ("feb".data, 1), ("mar".data, 2), ("apr".data, 3),
   ("jun".data, 5), ("jul".data, 6), ("aug".data, 7), ("sep".data, 8),
   ("sept".data, 8), ("oct".data, 9), ("nov".data, 10), ("dec".data, 11)]

/-- Numeric value of a digit character. -/
def digitVal (c : Char) : Nat := c.toNat - 48

/-- Greedy `\d{1,2}`: one or two digits and the remaining input.  For the
anchored regexes embedded here, taking two digits whenever possible never
changes acceptance: a rejected remainder after two digits starts with a
digit or fails the tail pattern, and the one-digit alternative then leaves
a digit in front of a tail pattern that cannot start with a digit. -/
def parseDigits12 (l : List Char) : Option (Nat × List Char) :=
  match l with
  | [] => none
  | c1 :: r1 =>
    if c1.isDigit then
      match r1 with
      | c2 :: r2 =>
        if c2.isDigit then some (digitVal c1 * 10 + digitVal c2, r2)
        else some (digitVal c1, r1)
      | [] => some (digitVal c1, [])
    else none

/-- `(st|nd|rd|th)?$` after the day digits. -/
def ordTailOk (rest : List Char) : Bool :=
  rest = [] || rest = "st".data || rest = "nd".data || rest = "rd".data ||
    rest = "th".data

/-- `\s+(\d{1,2})(st|nd|rd|th)?$` after a month token. -/
def parseDayTail (r : List Char) : Option Nat :=
  match r with
  | [] => none
  | c :: cs =>
    if isSpaceChar c then
      match parseDigits12 (cs.dropWhile isSpaceChar) with
      | some (d, rest) => if ordTailOk rest then some d else none
      | none => none
    else none

/-- Try the month alternation in order; on a prefix match whose tail fails,
fall through to the next alternative exactly as regex backtracking does. -/
def matchMonthList (assoc : List (List Char × Nat)) (l : List Char) :
    Option (Nat × Nat) :=
  match assoc with
  | [] => none
  | (tok, idx) :: rest =>
    match stripPrefixCh tok l with
    | some r =>
      match parseDayTail r with
      | some d => some (idx, d)
      | none => matchMonthList rest l
    | none => matchMonthList rest l

/-- `/^(january|...|dec)\s+(\d{1,2})(st|nd|rd|th)?$/i`, returning the month
index (via the `months` object) and the parsed day number. -/
def matchMonthDay (l : List Char) : Option (Nat × Nat) :=
  matchMonthList monthAssoc l

/-- `/^(\d{1,2})[\/\-](\d{1,2})$/`, returning (month number, day number). -/
def matchNumericMD (l : List Char) : Option (Nat × Nat) :=
  match parseDigits12 l with
  | none => none
  | some (m, r) =>
    match r with
    | [] => none
    | c :: cs =>
      if c = '/' ∨ c = '-' then
        match parseDigits12 cs with
        | none => none
        | some (d, r2) => if r2 = [] then some (m, d) else none
      else none

/- ## The resolver -/

/-- `dayNames` of the source. -/
def dayNames : List String :=
  ["Sunday", "Monday", "Tuesday", "Wednesday", "Thursday", "Friday", "Saturday"]

/-- `monthNames` of the source. -/
def monthNames : List String :=
  ["January", "February", "March", "April", "May", "June", "July", "August",
   "September", "October", "November", "December"]

/-- JS array indexing `s[i]` for a possibly negative index: `undefined`
(here `none`) for negative indices other than `-0`. -/
def jsArrGet (l : List String) (i : Int) : Option String :=
  if 0 ≤ i then l.get? i.toNat else none

/-- `const getOrdinal = (n) => {const s=['th','st','nd','rd'];const v=n%100;
return n+(s[(v-20)%10]||s[v]||s[0]);}`.  JS `%` truncates toward zero
(`Int.tmod`), and `undefined` array reads fall through `||`. -/
def getOrdinal (n : Nat) : String :=
  let s := ["th", "st", "nd", "rd"]
  let v := n % 100
  let suffix :=
    ((jsArrGet s (Int.tmod ((v : Int) - 20) 10)).orElse
      (fun _ => jsArrGet s (v : Int))).getD "th"
  toString n ++ suffix

/-- Days to add for the `(next)? <weekday>` branch (lines 25-28 of the
source): `daysToAdd = targetDay - currentDay; if (daysToAdd <= 0 || isNext)
daysToAdd += 7; if (isNext && daysToAdd <= 7) daysToAdd += 7;`. -/
def weekdayOffset (isNext : Bool) (targetDay currentDay : Nat) : Int :=
  let base : Int := (targetDay : Int) - (currentDay : Int)
  let d1 := if base ≤ 0 ∨ isNext = true then base + 7 else base
  if isNext = true ∧ d1 ≤ 7 then d1 + 7 else d1

/-- Days to add for the `this <weekday>` branch (lines 35-37): `daysToAdd =
targetDay - currentDay; if (daysToAdd < 0) daysToAdd += 7;`. -/
def thisWeekdayOffset (targetDay currentDay : Nat) : Int :=
  let base : Int := (targetDay : Int) - (currentDay : Int)
  if base < 0 then base + 7 else base

/-- `if (targetDate < today) targetDate.setFullYear(targetDate.getFullYear() + 1)`. -/
def rollForward (today t0 : CivilDate) : CivilDate :=
  if dateLT t0 today then mkDate (t0.year + 1) (t0.month : Int) t0.day else t0

/-- The branch cascade of `parseReservationDate` computing `targetDate`
from the lowercased, trimmed input.  In the source's final `else` block the
month-name pattern is tried first and the numeric pattern second, each
assigning `targetDate`, so the numeric pattern wins if both were to match;
the value is therefore: the numeric result if the numeric pattern matches,
otherwise the month-name result if that pattern matches, otherwise null
(no input matches both: one starts with a letter, the other with a digit). -/
def computeTarget (today : CivilDate) (input : List Char) : Option CivilDate :=
  if input = "today".data then some today
  else if input = "tomorrow".data then some (addDays today 1)
  else if input = "day after tomorrow".data then some (addDays today 2)
  else
    match matchWeekdayPhrase input with
    | some (isNext, targetDay) =>
      some (addDays today (weekdayOffset isNext targetDay (getDay today)).toNat)
    | none =>
      match matchThisPhrase input with
      | some targetDay =>
        some (addDays today (thisWeekdayOffset targetDay (getDay today)).toNat)
      | none =>
        match matchNumericMD input with
        | some (mnum, d) =>
          some (rollForward today (mkDate today.year ((mnum : Int) - 1) d))
        | none =>
          match matchMonthDay input with
          | some (m0, d) => some (rollForward today (mkDate today.year (m0 : Int) d))
          | none => none

/-- The result record of `parseReservationDate`. -/
structure ResolvedDate where
  original : String
  formatted : String
  date : Option CivilDate
  dayOfWeek : Option String
  isValid : Bool
  deriving DecidableEq

/-- `parseReservationDate(dateInput)` with the ambient clock made an
explicit `today` parameter (the current day, truncated; `now.getFullYear()`
is `today.year`). -/
def parseReservationDate (today : CivilDate) (dateInput : String) : ResolvedDate :=
  match computeTarget today (normChars dateInput) with
  | none =>
    { original := dateInput, formatted := dateInput, date := none,
      dayOfWeek := none, isValid := false }
  | some t =>
    let dayOfWeek := dayNames.getD (getDay t) ""
    let month := monthNames.getD t.month ""
    let formatted := dayOfWeek ++ ", " ++ month ++ " " ++ getOrdinal t.day
    { original := dateInput, formatted := formatted, date := some t,
      dayOfWeek := some dayOfWeek, isValid := true }

/- ## Specification-side definitions (for refinement claims) -/

/-- The standard English ordinal-suffix rule as the spec words it: 11-13
take "th", otherwise the suffix repeats by last digit. -/
def specOrdinalSuffix (n : Nat) : String :=
  if n % 100 = 11 ∨ n % 100 = 12 ∨ n % 100 = 13 then "th"
  else if n % 10 = 1 then "st"
  else if n % 10 = 2 then "nd"
  else if n % 10 = 3 then "rd"
  else "th"

/- ## Calendar lemmas -/

theorem wlin_carry (y : Int) (m : Nat) (hm : m < 12) (d : Int) :
    wlin (if m = 11 then y + 1 else y) (if m = 11 then 0 else m + 1)
      (d - (daysInMonth y m : Int)) % 7 = wlin y m d % 7 := by
  have hleap : (if isLeap y then (29 : Nat) else 28) =
      if y % 4 = 0 ∧ (y % 100 ≠ 0 ∨ y % 400 = 0) then 29 else 28 := by
    unfold isLeap
    rcases Decidable.em (y % 4 = 0) with h4 | h4 <;>
      rcases Decidable.em (y % 100 = 0) with h100 | h100 <;>
        rcases Decidable.em (y % 400 = 0) with h400 | h400 <;>
          simp [h4, h100, h400]
  interval_cases m <;> simp only [wlin, daysInMonth, monthTable, hleap] <;>
    norm_num <;> omega

theorem fixDay_of_le (y : Int) (m : Nat) (d : Nat) (h : d ≤ daysInMonth y m) :
    fixDay y m d = ⟨y, m, d⟩ := by
  rw [fixDay]
  simp [h]

theorem fixDay_step (y : Int) (m : Nat) (d : Nat) (h : ¬ d ≤ daysInMonth y m) :
    fixDay y m d =
      fixDay (if m = 11 then y + 1 else y) (if m = 11 then 0 else m + 1)
        (d - daysInMonth y m) := by
  conv_lhs => rw [fixDay]
  rw [if_neg h]

theorem fixDay_valid (y : Int) (m : Nat) (d : Nat) :
    m < 12 → 1 ≤ d → ValidDate (fixDay y m d) := by
  induction y, m, d using fixDay.induct with
  | case1 y m d h =>
    intro hm hd
    rw [fixDay_of_le y m d h]
    exact ⟨hm, hd, h⟩
  | case2 y m d h ih =>
    simp only [dite_eq_ite] at ih
    intro hm _
    rw [fixDay_step y m d h]
    have hdim := daysInMonth_pos y m
    exact ih (by split <;> omega) (by omega)

theorem fixDay_ym_ge (y : Int) (m : Nat) (d : Nat) :
    y < (fixDay y m d).year ∨
      (y = (fixDay y m d).year ∧ m ≤ (fixDay y m d).month) := by
  induction y, m, d using fixDay.induct with
  | case1 y m d h =>
    rw [fixDay_of_le y m d h]
    exact Or.inr ⟨rfl, le_refl m⟩
  | case2 y m d h ih =>
    simp only [dite_eq_ite] at ih
    rw [fixDay_step y m d h]
    split_ifs at * <;> rcases ih with h1 | ⟨h1, h2⟩ <;>
      first
        | exact Or.inl (by omega)
        | exact Or.inr (by omega)

theorem fixDay_strictMono (y : Int) (m : Nat) (d' : Nat) :
    ∀ d, 1 ≤ d → d < d' → dateLT (fixDay y m d) (fixDay y m d') := by
  induction y, m, d' using fixDay.induct with
  | case1 y m d' h =>
    intro d hd hdd
    rw [fixDay_of_le y m d (by omega), fixDay_of_le y m d' h]
    exact Or.inr ⟨rfl, Or.inr ⟨rfl, hdd⟩⟩
  | case2 y m d' h ih =>
    simp only [dite_eq_ite] at ih
    intro d hd hdd
    rw [fixDay_step y m d' h]
    rcases Decidable.em (d ≤ daysInMonth y m) with hc | hc
    · rw [fixDay_of_le y m d hc]
      have hge := fixDay_ym_ge (if m = 11 then y + 1 else y)
        (if m = 11 then 0 else m + 1) (d' - daysInMonth y m)
      unfold dateLT
      split_ifs at * <;> rcases hge with h1 | ⟨h1, h2⟩ <;> simp <;> omega
    · rw [fixDay_step y m d hc]
      have hdim := daysInMonth_pos y m
      exact ih (d - daysInMonth y m) (by omega) (by omega)

theorem fixDay_mono (y : Int) (m : Nat) (d d' : Nat) (hd : 1 ≤ d)
    (hdd : d ≤ d') : dateLE (fixDay y m d) (fixDay y m d') := by
  rcases Decidable.em (d = d') with he | he
  · exact Or.inr (by rw [he])
  · exact Or.inl (fixDay_strictMono y m d' d hd (by omega))

theorem addDays_fixDay (y : Int) (m : Nat) (d : Nat) :
    ∀ b, 1 ≤ d → addDays (fixDay y m d) b = fixDay y m (d + b) := by
  induction y, m, d using fixDay.induct with
  | case1 y m d h =>
    intro b _
    rw [fixDay_of_le y m d h]
    rfl
  | case2 y m d h ih =>
    simp only [dite_eq_ite] at ih
    intro b hd
    have hdim := daysInMonth_pos y m
    rw [fixDay_step y m d h, ih b (by omega)]
    rw [fixDay_step y m (d + b) (by omega)]
    congr 1
    omega

theorem addDays_valid (t : CivilDate) (n : Nat) (hv : ValidDate t) :
    ValidDate (addDays t n) :=
  fixDay_valid t.year t.month (t.day + n) hv.1 (by have := hv.2.1; omega)

theorem addDays_zero (t : CivilDate) (hv : ValidDate t) : addDays t 0 = t := by
  unfold addDays
  rw [fixDay_of_le t.year t.month (t.day + 0) (by have := hv.2.2; omega)]
  simp

theorem addDays_lt (t : CivilDate) (n : Nat) (hv : ValidDate t) (hn : 1 ≤ n) :
    dateLT t (addDays t n) := by
  have h := fixDay_strictMono t.year t.month (t.day + n) t.day hv.2.1 (by omega)
  rwa [fixDay_of_le t.year t.month t.day hv.2.2] at h

theorem addDays_le_addDays (t : CivilDate) (a b : Nat) (hv : ValidDate t)
    (hab : a ≤ b) : dateLE (addDays t a) (addDays t b) :=
  fixDay_mono t.year t.month (t.day + a) (t.day + b)
    (by have := hv.2.1; omega) (by omega)

theorem addDays_lt_addDays (t : CivilDate) (a b : Nat) (hv : ValidDate t)
    (hab : a < b) : dateLT (addDays t a) (addDays t b) :=
  fixDay_strictMono t.year t.month (t.day + b) (t.day + a)
    (by have := hv.2.1; omega) (by omega)

theorem getDay_lt_7 (t : CivilDate) : getDay t < 7 := by
  unfold getDay
  omega

theorem wlin_fixDay (y : Int) (m : Nat) (d : Nat) :
    m < 12 → 1 ≤ d →
      wlin (fixDay y m d).year (fixDay y m d).month ((fixDay y m d).day : Int) % 7 =
        wlin y m (d : Int) % 7 := by
  induction y, m, d using fixDay.induct with
  | case1 y m d h =>
    intro _ _
    rw [fixDay_of_le y m d h]
  | case2 y m d h ih =>
    simp only [dite_eq_ite] at ih
    intro hm _
    have hdim := daysInMonth_pos y m
    rw [fixDay_step y m d h]
    rw [ih (by split <;> omega) (by omega)]
    have hcast : ((d - daysInMonth y m : Nat) : Int) =
        (d : Int) - (daysInMonth y m : Int) := by omega
    rw [hcast]
    exact wlin_carry y m hm (d : Int)

theorem getDay_addDays (t : CivilDate) (n : Nat) (hv : ValidDate t) :
    getDay (addDays t n) = (getDay t + n) % 7 := by
  unfold addDays
  have h1 := wlin_fixDay t.year t.month (t.day + n) hv.1 (by have := hv.2.1; omega)
  unfold getDay
  rw [h1]
  have h2 : wlin t.year t.month ((t.day + n : Nat) : Int) =
      wlin t.year t.month (t.day : Int) + (n : Int) := by
    simp only [wlin]
    push_cast
    ring
  rw [h2]
  omega

theorem mkDate_valid (y m : Int) (d : Nat) : ValidDate (mkDate y m d) := by
  unfold mkDate
  have hm12 : (m % 12).toNat < 12 := by omega
  rcases Decidable.em (d = 0) with h0 | h0
  · rw [if_pos h0]
    rcases Decidable.em ((m % 12).toNat = 0) with hz | hz
    · rw [if_pos hz]
      refine ⟨?_, ?_, ?_⟩ <;> simp [ValidDate, daysInMonth]
    · rw [if_neg hz]
      refine ⟨?_, ?_, ?_⟩ <;> simp only [ValidDate]
      · omega
      · exact daysInMonth_pos _ _
      · exact le_refl _
  · rw [if_neg h0]
    exact fixDay_valid _ _ _ hm12 (by omega)

theorem mkDate_of_valid (y : Int) (m0 : Nat) (d : Nat) (hm : m0 < 12)
    (hd1 : 1 ≤ d) (hd2 : d ≤ daysInMonth y m0) :
    mkDate y (m0 : Int) d = ⟨y, m0, d⟩ := by
  unfold mkDate
  have h1 : (m0 : Int) / 12 = 0 := by omega
  have h2 : ((m0 : Int) % 12).toNat = m0 := by omega
  rw [if_neg (by omega), h1, h2, add_zero]
  exact fixDay_of_le y m0 d hd2

theorem mkDate_day_carry (y : Int) (m0 : Nat) (d : Nat) (hm : m0 < 12)
    (hd : daysInMonth y m0 < d) :
    mkDate y (m0 : Int) d = mkDate y ((m0 : Int) + 1) (d - daysInMonth y m0) := by
  have hdim := daysInMonth_pos y m0
  unfold mkDate
  have h1 : (m0 : Int) / 12 = 0 := by omega
  have h2 : ((m0 : Int) % 12).toNat = m0 := by omega
  rw [if_neg (by omega), if_neg (by omega), h1, h2, add_zero]
  rw [fixDay_step y m0 d (by omega)]
  rcases Decidable.em (m0 = 11) with h11 | h11
  · rw [if_pos h11, if_pos h11]
    have h3 : ((m0 : Int) + 1) / 12 = 1 := by omega
    have h4 : (((m0 : Int) + 1) % 12).toNat = 0 := by omega
    rw [h3, h4, h11]
  · rw [if_neg h11, if_neg h11]
    have h3 : ((m0 : Int) + 1) / 12 = 0 := by omega
    have h4 : (((m0 : Int) + 1) % 12).toNat = m0 + 1 := by omega
    rw [h3, h4, add_zero]

theorem mkDate_month_carry (y m : Int) (d : Nat) (_hm : 12 ≤ m) :
    mkDate y m d = mkDate (y + 1) (m - 12) d := by
  unfold mkDate
  have h1 : y + m / 12 = (y + 1) + (m - 12) / 12 := by omega
  have h2 : m % 12 = (m - 12) % 12 := by omega
  rw [h1, h2]

theorem addDays_one (t : CivilDate) (hv : ValidDate t) :
    addDays t 1 = nextDay t := by
  unfold addDays nextDay
  rcases Decidable.em (t.day < daysInMonth t.year t.month) with hlt | hlt
  · rw [fixDay_of_le t.year t.month (t.day + 1) (by omega), if_pos hlt]
  · have heq : t.day = daysInMonth t.year t.month := by have := hv.2.2; omega
    rw [if_neg hlt, fixDay_step t.year t.month (t.day + 1) (by omega)]
    have h1 : t.day + 1 - daysInMonth t.year t.month = 1 := by omega
    rw [h1, fixDay_of_le _ _ 1 (daysInMonth_pos _ _)]
    rcases Decidable.em (t.month = 11) with h11 | h11
    · rw [if_pos h11, if_pos h11, if_pos h11]
    · rw [if_neg h11, if_neg h11, if_neg h11]

theorem nextDay_valid (t : CivilDate) (hv : ValidDate t) :
    ValidDate (nextDay t) := by
  rw [← addDays_one t hv]
  exact addDays_valid t 1 hv

theorem addDays_two (t : CivilDate) (hv : ValidDate t) :
    addDays t 2 = nextDay (nextDay t) := by
  have h1 : addDays (addDays t 1) 1 = addDays t 2 := by
    show addDays (fixDay t.year t.month (t.day + 1)) 1 = _
    rw [addDays_fixDay t.year t.month (t.day + 1) 1 (by have := hv.2.1; omega)]
    show fixDay _ _ _ = fixDay _ _ _
    congr 1
  rw [← h1, addDays_one t hv, addDays_one (nextDay t) (nextDay_valid t hv)]

/- ## Resolver glue lemmas -/

theorem rollForward_valid (today : CivilDate) (y m : Int) (d : Nat) :
    ValidDate (rollForward today (mkDate y m d)) := by
  unfold rollForward
  split_ifs
  · exact mkDate_valid _ _ _
  · exact mkDate_valid _ _ _

theorem parse_eq_of_target_some (today : CivilDate) (s : String) (t : CivilDate)
    (h : computeTarget today (normChars s) = some t) :
    parseReservationDate today s =
      { original := s,
        formatted := dayNames.getD (getDay t) "" ++ ", " ++
          monthNames.getD t.month "" ++ " " ++ getOrdinal t.day,
        date := some t,
        dayOfWeek := some (dayNames.getD (getDay t) ""),
        isValid := true } := by
  unfold parseReservationDate
  rw [h]

theorem parse_eq_of_target_none (today : CivilDate) (s : String)
    (h : computeTarget today (normChars s) = none) :
    parseReservationDate today s =
      { original := s, formatted := s, date := none, dayOfWeek := none,
        isValid := false } := by
  unfold parseReservationDate
  rw [h]

theorem computeTarget_valid (today : CivilDate) (input : List Char)
    (t : CivilDate) (hv : ValidDate today)
    (h : computeTarget today input = some t) : ValidDate t := by
  unfold computeTarget at h
  split_ifs at h
  · cases h; exact hv
  · cases h; exact addDays_valid _ _ hv
  · cases h; exact addDays_valid _ _ hv
  · split at h
    · cases h; exact addDays_valid _ _ hv
    · split at h
      · cases h; exact addDays_valid _ _ hv
      · split at h
        · cases h; exact rollForward_valid _ _ _ _
        · split at h
          · cases h; exact rollForward_valid _ _ _ _
          · cases h

/- ## String-layer lemmas -/

theorem stripPrefixCh_some_iff (p : List Char) :
    ∀ l r, stripPrefixCh p l = some r ↔ l = p ++ r := by
  induction p with
  | nil =>
    intro l r
    simp only [stripPrefixCh, List.nil_append, Option.some.injEq]
  | cons a p ih =>
    intro l r
    cases l with
    | nil => simp [stripPrefixCh]
    | cons c cs =>
      simp only [stripPrefixCh, List.cons_append, List.cons.injEq]
      rcases Decidable.em (a = c) with he | he
      · rw [if_pos he, ih]
        subst he
        simp
      · rw [if_neg he]
        constructor
        · intro h
          cases h
        · rintro ⟨h1, _⟩
          exact absurd h1.symm he

theorem dropWhile_append_spaces (p l : List Char)
    (hp : ∀ c ∈ p, isSpaceChar c = true) :
    (p ++ l).dropWhile isSpaceChar = l.dropWhile isSpaceChar := by
  induction p with
  | nil => rfl
  | cons a p ih =>
    simp only [List.cons_append, List.dropWhile_cons, hp a (by simp), if_true]
    exact ih (fun c hc => hp c (by simp [hc]))

theorem dropWhile_append_of_ne_nil (l q : List Char)
    (h : l.dropWhile isSpaceChar ≠ []) :
    (l ++ q).dropWhile isSpaceChar = l.dropWhile isSpaceChar ++ q := by
  induction l with
  | nil => simp at h
  | cons a l ih =>
    simp only [List.cons_append, List.dropWhile_cons] at *
    rcases Decidable.em (isSpaceChar a = true) with hs | hs
    · simp only [hs, if_true] at *
      exact ih h
    · simp only [Bool.not_eq_true] at hs
      simp [hs]

theorem trimChars_pad (p q l : List Char)
    (hp : ∀ c ∈ p, isSpaceChar c = true) (hq : ∀ c ∈ q, isSpaceChar c = true) :
    trimChars (p ++ l ++ q) = trimChars l := by
  unfold trimChars
  rw [List.append_assoc, dropWhile_append_spaces p (l ++ q) hp]
  rcases Decidable.em (l.dropWhile isSpaceChar = []) with hnil | hnil
  · have hl : ∀ c ∈ l, isSpaceChar c = true := by
      rw [← List.dropWhile_eq_nil_iff]
      exact hnil
    have hlq : (l ++ q).dropWhile isSpaceChar = [] := by
      rw [List.dropWhile_eq_nil_iff]
      intro c hc
      rcases List.mem_append.mp hc with h1 | h1
      · exact hl c h1
      · exact hq c h1
    rw [hlq, hnil]
  · rw [dropWhile_append_of_ne_nil l q hnil, List.reverse_append,
      dropWhile_append_spaces q.reverse _ (by
        intro c hc
        exact hq c (List.mem_reverse.mp hc))]

theorem jsLowerChar_space (c : Char) (h : isSpaceChar c = true) :
    jsLowerChar c = c := by
  unfold isSpaceChar at h
  simp only [Bool.or_eq_true, decide_eq_true_eq] at h
  rcases h with ((((h | h) | h) | h) | h) | h <;> subst h <;> rfl

theorem normChars_mk_pad (s : String) (t p q : List Char)
    (hp : ∀ c ∈ p, isSpaceChar c = true) (hq : ∀ c ∈ q, isSpaceChar c = true)
    (hcase : t.map jsLowerChar = s.data.map jsLowerChar) :
    normChars (String.mk (p ++ t ++ q)) = normChars s := by
  unfold normChars
  show trimChars ((p ++ t ++ q).map jsLowerChar) = _
  rw [List.map_append, List.map_append, hcase]
  refine trimChars_pad _ _ _ ?_ ?_
  · intro c hc
    rcases List.mem_map.mp hc with ⟨a, ha, rfl⟩
    rw [jsLowerChar_space a (hp a ha)]
    exact hp a ha
  · intro c hc
    rcases List.mem_map.mp hc with ⟨a, ha, rfl⟩
    rw [jsLowerChar_space a (hq a ha)]
    exact hq a ha

/- ## Claim theorems -/

/-- **C2**: for every input string, `isValid = true` iff both `date` and
`dayOfWeek` are present; and whenever `isValid = false`, `formatted` equals
the original input string and `date` and `dayOfWeek` are both absent. -/
theorem resolved_record_invariant (today : CivilDate) (s : String) :
    ((parseReservationDate today s).isValid = true ↔
      (parseReservationDate today s).date ≠ none ∧
        (parseReservationDate today s).dayOfWeek ≠ none) ∧
    ((parseReservationDate today s).isValid = false →
      (parseReservationDate today s).formatted = s ∧
        (parseReservationDate today s).date = none ∧
        (parseReservationDate today s).dayOfWeek = none) := by
  rcases h : computeTarget today (normChars s) with _ | t
  · rw [parse_eq_of_target_none today s h]
    simp
  · rw [parse_eq_of_target_some today s t h]
    simp

/-- **C3**: `parseReservationDate` is total: every input yields a defined
record, either a successful resolution or exactly the fallback record, and
the empty string yields the fallback record. -/
theorem resolver_total_fallback (today : CivilDate) (s : String) :
    ((parseReservationDate today s).isValid = true ∨
      parseReservationDate today s =
        { original := s, formatted := s, date := none, dayOfWeek := none,
          isValid := false }) ∧
    parseReservationDate today "" =
      { original := "", formatted := "", date := none, dayOfWeek := none,
        isValid := false } := by
  constructor
  · rcases h : computeTarget today (normChars s) with _ | t
    · exact Or.inr (parse_eq_of_target_none today s h)
    · left
      rw [parse_eq_of_target_some today s t h]
  · exact parse_eq_of_target_none today "" rfl

/-- **C8**: matching is invariant under letter case and added
leading/trailing whitespace: the results agree on `date`, `dayOfWeek`,
`isValid`, and, when valid, `formatted`; only `original` reflects the
untouched input. -/
theorem case_whitespace_invariance (today : CivilDate) (s t : String)
    (p q : List Char)
    (hp : ∀ c ∈ p, isSpaceChar c = true) (hq : ∀ c ∈ q, isSpaceChar c = true)
    (hcase : t.data.map jsLowerChar = s.data.map jsLowerChar) :
    (parseReservationDate today (String.mk (p ++ t.data ++ q))).date =
        (parseReservationDate today s).date ∧
    (parseReservationDate today (String.mk (p ++ t.data ++ q))).dayOfWeek =
        (parseReservationDate today s).dayOfWeek ∧
    (parseReservationDate today (String.mk (p ++ t.data ++ q))).isValid =
        (parseReservationDate today s).isValid ∧
    ((parseReservationDate today s).isValid = true →
      (parseReservationDate today (String.mk (p ++ t.data ++ q))).formatted =
        (parseReservationDate today s).formatted) := by
  have hnorm : normChars (String.mk (p ++ t.data ++ q)) = normChars s :=
    normChars_mk_pad s t.data p q hp hq hcase
  rcases h : computeTarget today (normChars s) with _ | u
  · have h2 : computeTarget today (normChars (String.mk (p ++ t.data ++ q))) = none := by
      rw [hnorm]
      exact h
    rw [parse_eq_of_target_none _ _ h, parse_eq_of_target_none _ _ h2]
    simp
  · have h2 : computeTarget today (normChars (String.mk (p ++ t.data ++ q))) = some u := by
      rw [hnorm]
      exact h
    rw [parse_eq_of_target_some _ _ _ h, parse_eq_of_target_some _ _ _ h2]
    simp

/-- Witness for **C8** at a concrete input: `" ToMoRrOw\t"` resolves to the
same date as `"tomorrow"`. -/
theorem case_whitespace_invariance_witness :
    (parseReservationDate ⟨2024, 2, 15⟩
        (String.mk ([' '] ++ "ToMoRrOw".data ++ ['\t']))).date =
      (parseReservationDate ⟨2024, 2, 15⟩ "tomorrow").date :=
  (case_whitespace_invariance ⟨2024, 2, 15⟩ "tomorrow" "ToMoRrOw" [' '] ['\t']
    (by decide) (by decide) (by decide)).1

/- ## Weekday-offset arithmetic and branch evaluation -/

theorem weekdayOffset_false_range (i c : Nat) (hi : i < 7) (hc : c < 7) :
    1 ≤ weekdayOffset false i c ∧ weekdayOffset false i c ≤ 7 := by
  unfold weekdayOffset
  dsimp only
  split_ifs <;> simp_all <;> omega

theorem weekdayOffset_true_eq (i c : Nat) (_hi : i < 7) (_hc : c < 7) :
    weekdayOffset true i c = weekdayOffset false i c + 7 := by
  unfold weekdayOffset
  dsimp only
  split_ifs <;> simp_all
  omega

theorem weekdayOffset_false_tie (i c : Nat) (_hi : i < 7) (_hc : c < 7)
    (he : i = c) : weekdayOffset false i c = 7 := by
  unfold weekdayOffset
  dsimp only
  split_ifs <;> simp_all

theorem weekdayOffset_mod (isNext : Bool) (i c : Nat) (hi : i < 7) (hc : c < 7) :
    (c + (weekdayOffset isNext i c).toNat) % 7 = i := by
  unfold weekdayOffset
  rcases isNext <;> dsimp only <;> split_ifs <;> simp_all <;> omega

theorem thisOffset_range (i c : Nat) (hi : i < 7) (hc : c < 7) :
    0 ≤ thisWeekdayOffset i c ∧ thisWeekdayOffset i c ≤ 6 := by
  unfold thisWeekdayOffset
  dsimp only
  split_ifs <;> omega

theorem thisOffset_mod (i c : Nat) (hi : i < 7) (hc : c < 7) :
    (c + (thisWeekdayOffset i c).toNat) % 7 = i := by
  unfold thisWeekdayOffset
  dsimp only
  split_ifs <;> omega

theorem thisOffset_tie (i c : Nat) (he : i = c) : thisWeekdayOffset i c = 0 := by
  unfold thisWeekdayOffset
  subst he
  dsimp only
  split_ifs <;> omega

theorem computeTarget_weekday (today : CivilDate) (l : List Char)
    (isNext : Bool) (i : Nat)
    (h1 : l ≠ "today".data) (h2 : l ≠ "tomorrow".data)
    (h3 : l ≠ "day after tomorrow".data)
    (hm : matchWeekdayPhrase l = some (isNext, i)) :
    computeTarget today l =
      some (addDays today (weekdayOffset isNext i (getDay today)).toNat) := by
  unfold computeTarget
  rw [if_neg h1, if_neg h2, if_neg h3, hm]

theorem computeTarget_this (today : CivilDate) (l : List Char) (i : Nat)
    (h1 : l ≠ "today".data) (h2 : l ≠ "tomorrow".data)
    (h3 : l ≠ "day after tomorrow".data)
    (hw : matchWeekdayPhrase l = none) (hm : matchThisPhrase l = some i) :
    computeTarget today l =
      some (addDays today (thisWeekdayOffset i (getDay today)).toNat) := by
  unfold computeTarget
  rw [if_neg h1, if_neg h2, if_neg h3, hw, hm]

theorem computeTarget_numeric (today : CivilDate) (l : List Char)
    (mnum d : Nat)
    (h1 : l ≠ "today".data) (h2 : l ≠ "tomorrow".data)
    (h3 : l ≠ "day after tomorrow".data)
    (hw : matchWeekdayPhrase l = none) (hthis : matchThisPhrase l = none)
    (hm : matchNumericMD l = some (mnum, d)) :
    computeTarget today l =
      some (rollForward today (mkDate today.year ((mnum : Int) - 1) d)) := by
  unfold computeTarget
  rw [if_neg h1, if_neg h2, if_neg h3, hw, hthis, hm]

theorem computeTarget_monthday (today : CivilDate) (l : List Char)
    (m0 d : Nat)
    (h1 : l ≠ "today".data) (h2 : l ≠ "tomorrow".data)
    (h3 : l ≠ "day after tomorrow".data)
    (hw : matchWeekdayPhrase l = none) (hthis : matchThisPhrase l = none)
    (hnum : matchNumericMD l = none) (hm : matchMonthDay l = some (m0, d)) :
    computeTarget today l =
      some (rollForward today (mkDate today.year (m0 : Int) d)) := by
  unfold computeTarget
  rw [if_neg h1, if_neg h2, if_neg h3, hw, hthis, hnum, hm]

/-- **C1**: for every reference day and input of the form `<weekday>` or
`next <weekday>` (case-insensitive, up to surrounding whitespace), the
resolved date's weekday equals the requested weekday and lies strictly
after the reference day; on a tie (named weekday = today's weekday) or
with "next", the result is at least one week ahead; and the "next" result
is at least 7 days out and strictly after the plain result. -/
theorem weekday_phrase_resolution (today : CivilDate) (hv : ValidDate today)
    (i : Nat) (hi : i < 7) (s s' : String)
    (hs : normChars s = dayTokens.getD i [])
    (hs' : normChars s' = "next ".data ++ dayTokens.getD i []) :
    ∃ t t',
      (parseReservationDate today s).date = some t ∧
      (parseReservationDate today s').date = some t' ∧
      getDay t = i ∧ getDay t' = i ∧
      dateLT today t ∧ dateLT today t' ∧
      (getDay today = i → dateLE (addDays today 7) t) ∧
      dateLE (addDays today 7) t' ∧
      dateLT t t' := by
  have hc7 := getDay_lt_7 today
  have hA : computeTarget today (normChars s) =
      some (addDays today (weekdayOffset false i (getDay today)).toNat) := by
    rw [hs]
    interval_cases i <;>
      exact computeTarget_weekday today _ false _ (by decide) (by decide)
        (by decide) (by decide)
  have hB : computeTarget today (normChars s') =
      some (addDays today (weekdayOffset true i (getDay today)).toNat) := by
    rw [hs']
    interval_cases i <;>
      exact computeTarget_weekday today _ true _ (by decide) (by decide)
        (by decide) (by decide)
  have hd1 : (parseReservationDate today s).date =
      some (addDays today (weekdayOffset false i (getDay today)).toNat) := by
    rw [parse_eq_of_target_some today s _ hA]
  have hd2 : (parseReservationDate today s').date =
      some (addDays today (weekdayOffset true i (getDay today)).toNat) := by
    rw [parse_eq_of_target_some today s' _ hB]
  have hr := weekdayOffset_false_range i (getDay today) hi hc7
  have heq := weekdayOffset_true_eq i (getDay today) hi hc7
  have hmodF := weekdayOffset_mod false i (getDay today) hi hc7
  have hmodT := weekdayOffset_mod true i (getDay today) hi hc7
  refine ⟨addDays today (weekdayOffset false i (getDay today)).toNat,
    addDays today (weekdayOffset true i (getDay today)).toNat,
    hd1, hd2, ?_, ?_, ?_, ?_, ?_, ?_, ?_⟩
  · rw [getDay_addDays today _ hv]
    omega
  · rw [getDay_addDays today _ hv]
    omega
  · exact addDays_lt today _ hv (by omega)
  · exact addDays_lt today _ hv (by omega)
  · intro htie
    have h7 : (weekdayOffset false i (getDay today)).toNat = 7 := by
      have := weekdayOffset_false_tie i (getDay today) hi hc7 htie.symm
      omega
    rw [h7]
    exact Or.inr rfl
  · exact addDays_le_addDays today 7 _ hv (by omega)
  · exact addDays_lt_addDays today _ _ hv (by omega)

/-- Witness for **C1** at reference day 2024-03-15 (a Friday) with the
inputs "Monday" and "Next Monday". -/
theorem weekday_phrase_resolution_witness :
    ∃ t t',
      (parseReservationDate ⟨2024, 2, 15⟩ "Monday").date = some t ∧
      (parseReservationDate ⟨2024, 2, 15⟩ "Next Monday").date = some t' ∧
      getDay t = 1 ∧ getDay t' = 1 ∧
      dateLT ⟨2024, 2, 15⟩ t ∧ dateLT ⟨2024, 2, 15⟩ t' ∧
      (getDay ⟨2024, 2, 15⟩ = 1 → dateLE (addDays ⟨2024, 2, 15⟩ 7) t) ∧
      dateLE (addDays ⟨2024, 2, 15⟩ 7) t' ∧
      dateLT t t' :=
  weekday_phrase_resolution ⟨2024, 2, 15⟩ (by decide) 1 (by decide)
    "Monday" "Next Monday" (by decide) (by decide)

/-- **C5**: for every reference day and input of the form `this <weekday>`
(case-insensitive), the resolved date's weekday equals the requested
weekday and the resolved date is on or after the reference day; if the
reference day already is that weekday, the result is the reference day. -/
theorem this_weekday_resolution (today : CivilDate) (hv : ValidDate today)
    (i : Nat) (hi : i < 7) (s : String)
    (hs : normChars s = "this ".data ++ dayTokens.getD i []) :
    ∃ t,
      (parseReservationDate today s).date = some t ∧
      getDay t = i ∧
      dateLE today t ∧
      (getDay today = i → t = today) := by
  have hc7 := getDay_lt_7 today
  have hA : computeTarget today (normChars s) =
      some (addDays today (thisWeekdayOffset i (getDay today)).toNat) := by
    rw [hs]
    interval_cases i <;>
      exact computeTarget_this today _ _ (by decide) (by decide) (by decide)
        (by decide) (by decide)
  have hd1 : (parseReservationDate today s).date =
      some (addDays today (thisWeekdayOffset i (getDay today)).toNat) := by
    rw [parse_eq_of_target_some today s _ hA]
  have hr := thisOffset_range i (getDay today) hi hc7
  have hmod := thisOffset_mod i (getDay today) hi hc7
  refine ⟨addDays today (thisWeekdayOffset i (getDay today)).toNat,
    hd1, ?_, ?_, ?_⟩
  · rw [getDay_addDays today _ hv]
    omega
  · rcases Nat.eq_zero_or_pos ((thisWeekdayOffset i (getDay today)).toNat) with
      h0 | hpos
    · rw [h0, addDays_zero today hv]
      exact Or.inr rfl
    · exact Or.inl (addDays_lt today _ hv hpos)
  · intro htie
    have h0 : (thisWeekdayOffset i (getDay today)).toNat = 0 := by
      have := thisOffset_tie i (getDay today) htie.symm
      omega
    rw [h0]
    exact addDays_zero today hv

/-- Witness for **C5** at reference day 2024-03-15 (a Friday) with input
"This Friday": the result is the reference day itself. -/
theorem this_weekday_resolution_witness :
    ∃ t,
      (parseReservationDate ⟨2024, 2, 15⟩ "This Friday").date = some t ∧
      getDay t = 5 ∧
      dateLE ⟨2024, 2, 15⟩ t ∧
      (getDay ⟨2024, 2, 15⟩ = 5 → t = ⟨2024, 2, 15⟩) :=
  this_weekday_resolution ⟨2024, 2, 15⟩ (by decide) 5 (by decide)
    "This Friday" (by decide)

/-- **C10** (implicit): every recognized weekday phrase resolves at most 14
days past the reference day: `this <weekday>` adds 0-6 days, a plain
`<weekday>` adds 1-7 days, and `next <weekday>` adds 8-14 days. -/
theorem weekday_offset_bounds (today : CivilDate) (hv : ValidDate today)
    (i : Nat) (hi : i < 7) (s1 s2 s3 : String)
    (h1 : normChars s1 = dayTokens.getD i [])
    (h2 : normChars s2 = "next ".data ++ dayTokens.getD i [])
    (h3 : normChars s3 = "this ".data ++ dayTokens.getD i []) :
    (∃ n, 1 ≤ n ∧ n ≤ 7 ∧
      (parseReservationDate today s1).date = some (addDays today n) ∧
      dateLE (addDays today n) (addDays today 14)) ∧
    (∃ n, 8 ≤ n ∧ n ≤ 14 ∧
      (parseReservationDate today s2).date = some (addDays today n) ∧
      dateLE (addDays today n) (addDays today 14)) ∧
    (∃ n, n ≤ 6 ∧
      (parseReservationDate today s3).date = some (addDays today n) ∧
      dateLE (addDays today n) (addDays today 14)) := by
  have hc7 := getDay_lt_7 today
  have hr := weekdayOffset_false_range i (getDay today) hi hc7
  have heq := weekdayOffset_true_eq i (getDay today) hi hc7
  have hrt := thisOffset_range i (getDay today) hi hc7
  refine ⟨⟨(weekdayOffset false i (getDay today)).toNat, by omega, by omega,
      ?_, addDays_le_addDays today _ 14 hv (by omega)⟩,
    ⟨(weekdayOffset true i (getDay today)).toNat, by omega, by omega,
      ?_, addDays_le_addDays today _ 14 hv (by omega)⟩,
    ⟨(thisWeekdayOffset i (getDay today)).toNat, by omega,
      ?_, addDays_le_addDays today _ 14 hv (by omega)⟩⟩
  · have hA : computeTarget today (normChars s1) =
        some (addDays today (weekdayOffset false i (getDay today)).toNat) := by
      rw [h1]
      interval_cases i <;>
        exact computeTarget_weekday today _ false _ (by decide) (by decide)
          (by decide) (by decide)
    rw [parse_eq_of_target_some today s1 _ hA]
  · have hB : computeTarget today (normChars s2) =
        some (addDays today (weekdayOffset true i (getDay today)).toNat) := by
      rw [h2]
      interval_cases i <;>
        exact computeTarget_weekday today _ true _ (by decide) (by decide)
          (by decide) (by decide)
    rw [parse_eq_of_target_some today s2 _ hB]
  · have hC : computeTarget today (normChars s3) =
        some (addDays today (thisWeekdayOffset i (getDay today)).toNat) := by
      rw [h3]
      interval_cases i <;>
        exact computeTarget_this today _ _ (by decide) (by decide) (by decide)
          (by decide) (by decide)
    rw [parse_eq_of_target_some today s3 _ hC]

/-- Witness for **C10** at reference day 2024-03-15 with the three
"wednesday" phrases. -/
theorem weekday_offset_bounds_witness :
    ∃ n, 1 ≤ n ∧ n ≤ 7 ∧
      (parseReservationDate ⟨2024, 2, 15⟩ "wednesday").date =
        some (addDays ⟨2024, 2, 15⟩ n) ∧
      dateLE (addDays ⟨2024, 2, 15⟩ n) (addDays ⟨2024, 2, 15⟩ 14) :=
  (weekday_offset_bounds ⟨2024, 2, 15⟩ (by decide) 3 (by decide)
    "wednesday" "next wednesday" "this wednesday"
    (by decide) (by decide) (by decide)).1

/-- **C7**: with reference date 2024-03-15 (a Friday), "today" resolves to
that Friday formatted "Friday, March 15th" and "tomorrow" to Saturday
2024-03-16 formatted "Saturday, March 16th"; and for every reference day,
"today" resolves to the reference day, "tomorrow" to its calendar
successor, and "day after tomorrow" to the successor's successor. -/
theorem literal_phrase_resolution :
    parseReservationDate ⟨2024, 2, 15⟩ "today" =
      { original := "today", formatted := "Friday, March 15th",
        date := some ⟨2024, 2, 15⟩, dayOfWeek := some "Friday",
        isValid := true } ∧
    parseReservationDate ⟨2024, 2, 15⟩ "tomorrow" =
      { original := "tomorrow", formatted := "Saturday, March 16th",
        date := some ⟨2024, 2, 16⟩, dayOfWeek := some "Saturday",
        isValid := true } ∧
    ∀ today : CivilDate, ValidDate today →
      (parseReservationDate today "today").date = some today ∧
      (parseReservationDate today "tomorrow").date = some (nextDay today) ∧
      (parseReservationDate today "day after tomorrow").date =
        some (nextDay (nextDay today)) := by
  refine ⟨?_, ?_, ?_⟩
  · have h1c : computeTarget ⟨2024, 2, 15⟩ (normChars "today") =
        some ⟨2024, 2, 15⟩ := rfl
    rw [parse_eq_of_target_some _ _ _ h1c]
    decide
  · have e : addDays (⟨2024, 2, 15⟩ : CivilDate) 1 = ⟨2024, 2, 16⟩ := by
      unfold addDays
      exact fixDay_of_le 2024 2 16 (by decide)
    have h2c : computeTarget ⟨2024, 2, 15⟩ (normChars "tomorrow") =
        some ⟨2024, 2, 16⟩ := by
      rw [show computeTarget ⟨2024, 2, 15⟩ (normChars "tomorrow") =
          some (addDays ⟨2024, 2, 15⟩ 1) from rfl, e]
    rw [parse_eq_of_target_some _ _ _ h2c]
    decide
  intro today hv
  have h1 : computeTarget today (normChars "today") = some today := rfl
  have h2 : computeTarget today (normChars "tomorrow") =
      some (addDays today 1) := rfl
  have h3 : computeTarget today (normChars "day after tomorrow") =
      some (addDays today 2) := rfl
  refine ⟨?_, ?_, ?_⟩
  · rw [parse_eq_of_target_some today "today" today h1]
  · rw [parse_eq_of_target_some today "tomorrow" _ h2, addDays_one today hv]
  · rw [parse_eq_of_target_some today "day after tomorrow" _ h3,
      addDays_two today hv]

/-- Witness for **C7**'s quantified part at reference day 2024-03-15. -/
theorem literal_phrase_resolution_witness :
    (parseReservationDate ⟨2024, 2, 15⟩ "day after tomorrow").date =
      some (nextDay (nextDay ⟨2024, 2, 15⟩)) :=
  (literal_phrase_resolution.2.2 ⟨2024, 2, 15⟩ (by decide)).2.2

/- ## Matcher inversion and branch disjointness -/

theorem matchMonthList_inv (assoc : List (List Char × Nat)) (l : List Char)
    (p : Nat × Nat) (h : matchMonthList assoc l = some p) :
    ∃ tok r, (tok, p.1) ∈ assoc ∧ stripPrefixCh tok l = some r ∧
      parseDayTail r = some p.2 := by
  induction assoc with
  | nil => simp [matchMonthList] at h
  | cons a rest ih =>
    rcases a with ⟨tok, idx⟩
    rw [matchMonthList] at h
    rcases hstrip : stripPrefixCh tok l with _ | r <;> rw [hstrip] at h <;>
      dsimp only at h
    · obtain ⟨tok2, r2, hmem, hs2, ht2⟩ := ih h
      exact ⟨tok2, r2, List.mem_cons_of_mem _ hmem, hs2, ht2⟩
    · rcases htail : parseDayTail r with _ | d <;> rw [htail] at h <;>
        dsimp only at h
      · obtain ⟨tok2, r2, hmem, hs2, ht2⟩ := ih h
        exact ⟨tok2, r2, List.mem_cons_of_mem _ hmem, hs2, ht2⟩
      · injection h with h
        subst h
        exact ⟨tok, r, List.mem_cons_self _ _, hstrip, htail⟩

theorem parseDayTail_inv (r : List Char) (d : Nat)
    (h : parseDayTail r = some d) :
    ∃ c cs, r = c :: cs ∧ isSpaceChar c = true := by
  cases r with
  | nil => simp [parseDayTail] at h
  | cons c cs =>
    refine ⟨c, cs, rfl, ?_⟩
    by_contra hns
    unfold parseDayTail at h
    dsimp only at h
    rw [if_neg hns] at h
    cases h

theorem matchNumericMD_inv (l : List Char) (p : Nat × Nat)
    (h : matchNumericMD l = some p) :
    ∃ c cs, l = c :: cs ∧ c.isDigit = true := by
  cases l with
  | nil => simp [matchNumericMD, parseDigits12] at h
  | cons c cs =>
    refine ⟨c, cs, rfl, ?_⟩
    by_contra hns
    unfold matchNumericMD parseDigits12 at h
    dsimp only at h
    rw [if_neg hns] at h
    cases h

/-- No phrase of the form (month token)(any character)(anything) collides
with an earlier branch of the cascade: it is not a literal phrase, not a
weekday or this-weekday phrase, and not a numeric month/day phrase. -/
theorem monthPhrase_disjoint (tok : List Char) (idx : Nat)
    (hmem : (tok, idx) ∈ monthAssoc) (c : Char) (cs : List Char) :
    tok ++ c :: cs ≠ "today".data ∧
    tok ++ c :: cs ≠ "tomorrow".data ∧
    tok ++ c :: cs ≠ "day after tomorrow".data ∧
    matchWeekdayPhrase (tok ++ c :: cs) = none ∧
    matchThisPhrase (tok ++ c :: cs) = none ∧
    matchNumericMD (tok ++ c :: cs) = none := by
  simp only [monthAssoc, List.mem_cons, List.not_mem_nil, or_false,
    Prod.mk.injEq] at hmem
  rcases hmem with h|h|h|h|h|h|h|h|h|h|h|h|h|h|h|h|h|h|h|h|h|h|h|h <;>
    obtain ⟨rfl, rfl⟩ := h <;>
    simp [matchWeekdayPhrase, matchThisPhrase, matchNumericMD, findIndexCh,
      dayTokens, stripPrefixCh, parseDigits12]

/-- A digit-headed input collides with no earlier branch of the cascade. -/
theorem digitHead_disjoint (c : Char) (cs : List Char)
    (hd : c.isDigit = true) :
    c :: cs ≠ "today".data ∧
    c :: cs ≠ "tomorrow".data ∧
    c :: cs ≠ "day after tomorrow".data ∧
    matchWeekdayPhrase (c :: cs) = none ∧
    matchThisPhrase (c :: cs) = none := by
  have hs : 's' ≠ c := fun h => absurd (h ▸ hd) (by decide)
  have hm : 'm' ≠ c := fun h => absurd (h ▸ hd) (by decide)
  have ht : 't' ≠ c := fun h => absurd (h ▸ hd) (by decide)
  have hw : 'w' ≠ c := fun h => absurd (h ▸ hd) (by decide)
  have hf : 'f' ≠ c := fun h => absurd (h ▸ hd) (by decide)
  have hn : 'n' ≠ c := fun h => absurd (h ▸ hd) (by decide)
  have hdd : 'd' ≠ c := fun h => absurd (h ▸ hd) (by decide)
  simp [matchWeekdayPhrase, matchThisPhrase, findIndexCh, dayTokens,
    stripPrefixCh, hs, hm, ht, hw, hf, hn, hdd, Ne.symm hs, Ne.symm hm,
    Ne.symm ht, Ne.symm hw, Ne.symm hf, Ne.symm hn, Ne.symm hdd]

/-- Any successful month-name match sends the cascade to the month/day
branch. -/
theorem computeTarget_of_matchMonthDay (today : CivilDate) (l : List Char)
    (m0 d : Nat) (hm : matchMonthDay l = some (m0, d)) :
    computeTarget today l =
      some (rollForward today (mkDate today.year (m0 : Int) d)) := by
  obtain ⟨tok, r, hmem, hstrip, htail⟩ := matchMonthList_inv monthAssoc l _ hm
  obtain ⟨c, cs, rfl, hc⟩ := parseDayTail_inv r _ htail
  have hl : l = tok ++ c :: cs := (stripPrefixCh_some_iff tok l _).mp hstrip
  subst hl
  obtain ⟨h1, h2, h3, hwk, hthis, hnum⟩ := monthPhrase_disjoint tok m0 hmem c cs
  exact computeTarget_monthday today _ m0 d h1 h2 h3 hwk hthis hnum hm

/-- Any successful numeric match sends the cascade to the numeric
month/day branch. -/
theorem computeTarget_of_matchNumeric (today : CivilDate) (l : List Char)
    (mnum d : Nat) (hm : matchNumericMD l = some (mnum, d)) :
    computeTarget today l =
      some (rollForward today (mkDate today.year ((mnum : Int) - 1) d)) := by
  obtain ⟨c, cs, rfl, hdig⟩ := matchNumericMD_inv l _ hm
  obtain ⟨h1, h2, h3, hwk, hthis⟩ := digitHead_disjoint c cs hdig
  exact computeTarget_numeric today _ mnum d h1 h2 h3 hwk hthis hm

/-- Evaluate `mkDate` on a day overflowing its month by a single carry. -/
theorem mkDate_eval_carry1 (y : Int) (m0 d : Nat) (hm : m0 + 1 < 12)
    (h1 : daysInMonth y m0 < d)
    (h2 : d - daysInMonth y m0 ≤ daysInMonth y (m0 + 1)) :
    mkDate y (m0 : Int) d = ⟨y, m0 + 1, d - daysInMonth y m0⟩ := by
  rw [mkDate_day_carry y m0 d (by omega) h1]
  have hc : ((m0 : Int) + 1) = ((m0 + 1 : Nat) : Int) := by push_cast; ring
  rw [hc]
  refine mkDate_of_valid y (m0 + 1) (d - daysInMonth y m0) hm ?_ h2
  omega

/-- The only way a valid month/day of one year can overflow the same month
of the following year is February 29 rolling into a non-leap year. -/
theorem dim_next_year_lt (y : Int) (m0 d : Nat) (hm0 : m0 < 12)
    (hd2 : d ≤ daysInMonth y m0) (h : daysInMonth (y + 1) m0 < d) :
    m0 = 1 ∧ d = 29 ∧ daysInMonth (y + 1) 1 = 28 := by
  interval_cases m0 <;> simp only [daysInMonth] at hd2 h ⊢ <;>
    split_ifs at hd2 h ⊢ <;>
    first
      | (exfalso; omega)
      | exact ⟨trivial, by omega, rfl⟩

/-- **C4 counterexample**: with reference date 2024-03-15, the input
"february 29" (a real date of the current year, strictly before the
reference day) does not roll forward to the same month/day of the next
year: the resolver returns March 1, 2025 (month index 2), not February 29,
2025. -/
theorem month_day_rollover_counterexample :
    (parseReservationDate ⟨2024, 2, 15⟩ "february 29").date =
      some ⟨2025, 2, 1⟩ ∧
    (CivilDate.mk 2025 2 1).month ≠ 1 := by
  constructor
  · have hm : matchMonthDay (normChars "february 29") = some (1, 29) := by
      decide
    have hct := computeTarget_of_matchMonthDay ⟨2024, 2, 15⟩
      (normChars "february 29") 1 29 hm
    have e1 : mkDate (2024 : Int) ((1 : Nat) : Int) 29 = ⟨2024, 1, 29⟩ :=
      mkDate_of_valid 2024 1 29 (by decide) (by decide) (by decide)
    rw [show ((⟨2024, 2, 15⟩ : CivilDate).year) = (2024 : Int) from rfl, e1]
      at hct
    have e2 : rollForward ⟨2024, 2, 15⟩ ⟨2024, 1, 29⟩ =
        mkDate 2025 ((1 : Nat) : Int) 29 := by
      unfold rollForward
      rw [if_pos (by decide)]
      rfl
    have e3 : mkDate 2025 ((1 : Nat) : Int) 29 = ⟨2025, 2, 1⟩ := by
      have h := mkDate_eval_carry1 2025 1 29 (by decide) (by decide) (by decide)
      rw [h]
      decide
    rw [e2, e3] at hct
    rw [parse_eq_of_target_some _ _ _ hct]
  · decide

/-- **C4 (amended)**: for every reference day and recognized
`<Month name> <day>` or `<month>/<day>` input denoting a valid month/day
of the reference year, the resolver produces that month/day in the current
year; if that date is strictly before the reference day it rolls forward
to the next year — landing on the same month/day when that month/day
exists in the next year, and on March 1 when it was February 29 rolling
into a non-leap year; a date equal to the reference day is not rolled.  In
particular `"3/4"` at reference 2024-03-15 gives March 4, 2025. -/
theorem month_day_resolution (today : CivilDate) (_hv : ValidDate today)
    (s : String) (m0 d : Nat) (hm0 : m0 < 12) (hd1 : 1 ≤ d)
    (hd2 : d ≤ daysInMonth today.year m0)
    (hm : matchMonthDay (normChars s) = some (m0, d) ∨
          matchNumericMD (normChars s) = some (m0 + 1, d)) :
    (parseReservationDate today s).isValid = true ∧
    (¬ dateLT ⟨today.year, m0, d⟩ today →
      (parseReservationDate today s).date = some ⟨today.year, m0, d⟩) ∧
    (dateLT ⟨today.year, m0, d⟩ today →
      d ≤ daysInMonth (today.year + 1) m0 →
      (parseReservationDate today s).date = some ⟨today.year + 1, m0, d⟩) ∧
    (dateLT ⟨today.year, m0, d⟩ today →
      daysInMonth (today.year + 1) m0 < d →
      m0 = 1 ∧ d = 29 ∧
      (parseReservationDate today s).date = some ⟨today.year + 1, 2, 1⟩) ∧
    (parseReservationDate ⟨2024, 2, 15⟩ "3/4").date = some ⟨2025, 2, 4⟩ := by
  have hbase : mkDate today.year (m0 : Int) d = ⟨today.year, m0, d⟩ :=
    mkDate_of_valid _ _ _ hm0 hd1 hd2
  have hct : computeTarget today (normChars s) =
      some (rollForward today ⟨today.year, m0, d⟩) := by
    rcases hm with hm | hm
    · rw [computeTarget_of_matchMonthDay today _ m0 d hm, hbase]
    · rw [computeTarget_of_matchNumeric today _ (m0 + 1) d hm]
      have hc : ((m0 + 1 : Nat) : Int) - 1 = (m0 : Int) := by push_cast; ring
      rw [hc, hbase]
  have hdate : (parseReservationDate today s).date =
      some (rollForward today ⟨today.year, m0, d⟩) := by
    rw [parse_eq_of_target_some today s _ hct]
  have hvalid : (parseReservationDate today s).isValid = true := by
    rw [parse_eq_of_target_some today s _ hct]
  refine ⟨hvalid, ?_, ?_, ?_, ?_⟩
  · intro hnlt
    rw [hdate]
    unfold rollForward
    rw [if_neg hnlt]
  · intro hlt hfit
    rw [hdate]
    unfold rollForward
    rw [if_pos hlt]
    dsimp only
    rw [mkDate_of_valid (today.year + 1) m0 d hm0 hd1 hfit]
  · intro hlt hover
    obtain ⟨hm1, hd29, hdim28⟩ :=
      dim_next_year_lt today.year m0 d hm0 hd2 hover
    subst hm1
    subst hd29
    refine ⟨rfl, rfl, ?_⟩
    rw [hdate]
    unfold rollForward
    rw [if_pos hlt]
    dsimp only
    have hcar := mkDate_eval_carry1 (today.year + 1) 1 29 (by omega)
      (by omega) (by simp only [daysInMonth]; omega)
    rw [hcar, hdim28]
  · have hm2 : matchNumericMD (normChars "3/4") = some (3, 4) := by decide
    have hct2 := computeTarget_of_matchNumeric ⟨2024, 2, 15⟩
      (normChars "3/4") 3 4 hm2
    have hc : ((3 : Nat) : Int) - 1 = ((2 : Nat) : Int) := by decide
    rw [show ((⟨2024, 2, 15⟩ : CivilDate).year) = (2024 : Int) from rfl, hc,
      mkDate_of_valid 2024 2 4 (by decide) (by decide) (by decide)] at hct2
    have e2 : rollForward ⟨2024, 2, 15⟩ ⟨2024, 2, 4⟩ =
        mkDate 2025 ((2 : Nat) : Int) 4 := by
      unfold rollForward
      rw [if_pos (by decide)]
      rfl
    rw [e2, mkDate_of_valid 2025 2 4 (by decide) (by decide) (by decide)]
      at hct2
    rw [parse_eq_of_target_some _ _ _ hct2]

/-- Witness for the amended **C4** with input "3/4" at reference
2024-03-15: the rolled date is March 4, 2025. -/
theorem month_day_resolution_witness :
    (parseReservationDate ⟨2024, 2, 15⟩ "3/4").date = some ⟨2025, 2, 4⟩ :=
  (month_day_resolution ⟨2024, 2, 15⟩ (by decide) "3/4" 2 4 (by decide)
    (by decide) (by decide) (Or.inr (by decide))).2.2.2.2

/-- **C9** (implicit): inputs matching the month/day shapes whose
month/day combination is not a real calendar date still resolve with
`isValid = true`, the date being normalized by calendar overflow exactly
as JS `Date` construction does: any recognized month/day match feeds
`mkDate`, excess days carry into the following month and excess months
into the following year, and e.g. "february 30" at reference 2024-03-15
gives March 1, 2025 while "13/5" gives January 5, 2025. -/
theorem overflow_normalization (today : CivilDate) (s : String) (mi d : Nat) :
    (matchMonthDay (normChars s) = some (mi, d) →
      (parseReservationDate today s).isValid = true ∧
      (parseReservationDate today s).date =
        some (rollForward today (mkDate today.year (mi : Int) d))) ∧
    (matchNumericMD (normChars s) = some (mi, d) →
      (parseReservationDate today s).isValid = true ∧
      (parseReservationDate today s).date =
        some (rollForward today (mkDate today.year ((mi : Int) - 1) d))) ∧
    (∀ (y : Int) (m0 dd : Nat), m0 < 12 → daysInMonth y m0 < dd →
      mkDate y (m0 : Int) dd =
        mkDate y ((m0 : Int) + 1) (dd - daysInMonth y m0)) ∧
    (∀ (y m : Int) (dd : Nat), 12 ≤ m →
      mkDate y m dd = mkDate (y + 1) (m - 12) dd) ∧
    (parseReservationDate ⟨2024, 2, 15⟩ "february 30").isValid = true ∧
    (parseReservationDate ⟨2024, 2, 15⟩ "february 30").date =
      some ⟨2025, 2, 1⟩ ∧
    (parseReservationDate ⟨2024, 2, 15⟩ "13/5").isValid = true ∧
    (parseReservationDate ⟨2024, 2, 15⟩ "13/5").date = some ⟨2025, 0, 5⟩ := by
  have hfeb : computeTarget ⟨2024, 2, 15⟩ (normChars "february 30") =
      some ⟨2025, 2, 1⟩ := by
    have hm : matchMonthDay (normChars "february 30") = some (1, 30) := by
      decide
    rw [computeTarget_of_matchMonthDay ⟨2024, 2, 15⟩ _ 1 30 hm]
    have e1 : mkDate ((⟨2024, 2, 15⟩ : CivilDate).year) ((1 : Nat) : Int) 30 =
        ⟨2024, 2, 1⟩ := by
      have h := mkDate_eval_carry1 2024 1 30 (by decide) (by decide) (by decide)
      rw [show ((⟨2024, 2, 15⟩ : CivilDate).year) = (2024 : Int) from rfl, h]
      decide
    rw [e1]
    unfold rollForward
    rw [if_pos (by decide)]
    have e2 : mkDate ((⟨2024, 2, 1⟩ : CivilDate).year + 1)
        ((⟨2024, 2, 1⟩ : CivilDate).month : Int)
        ((⟨2024, 2, 1⟩ : CivilDate).day) = ⟨2025, 2, 1⟩ :=
      mkDate_of_valid 2025 2 1 (by decide) (by decide) (by decide)
    rw [e2]
  have hnum13 : computeTarget ⟨2024, 2, 15⟩ (normChars "13/5") =
      some ⟨2025, 0, 5⟩ := by
    have hm : matchNumericMD (normChars "13/5") = some (13, 5) := by decide
    rw [computeTarget_of_matchNumeric ⟨2024, 2, 15⟩ _ 13 5 hm]
    have hc : ((13 : Nat) : Int) - 1 = (12 : Int) := by decide
    rw [show ((⟨2024, 2, 15⟩ : CivilDate).year) = (2024 : Int) from rfl, hc]
    have e1 : mkDate 2024 (12 : Int) 5 = ⟨2025, 0, 5⟩ := by
      rw [mkDate_month_carry 2024 12 5 (by decide)]
      have h0 : (12 : Int) - 12 = ((0 : Nat) : Int) := by decide
      rw [h0]
      exact mkDate_of_valid 2025 0 5 (by decide) (by decide) (by decide)
    rw [e1]
    unfold rollForward
    rw [if_neg (by decide)]
  refine ⟨?_, ?_, ?_, ?_, ?_, ?_, ?_, ?_⟩
  · intro hm
    have hct := computeTarget_of_matchMonthDay today (normChars s) mi d hm
    constructor <;> rw [parse_eq_of_target_some today s _ hct]
  · intro hm
    have hct := computeTarget_of_matchNumeric today (normChars s) mi d hm
    constructor <;> rw [parse_eq_of_target_some today s _ hct]
  · intro y m0 dd hm0 hover
    exact mkDate_day_carry y m0 dd hm0 hover
  · intro y m dd hm12
    exact mkDate_month_carry y m dd hm12
  · rw [parse_eq_of_target_some _ _ _ hfeb]
  · rw [parse_eq_of_target_some _ _ _ hfeb]
  · rw [parse_eq_of_target_some _ _ _ hnum13]
  · rw [parse_eq_of_target_some _ _ _ hnum13]

/-- Witness for **C9** with the month-name hypothesis discharged at
"february 30". -/
theorem overflow_normalization_witness :
    (parseReservationDate ⟨2024, 2, 15⟩ "february 30").isValid = true ∧
    (parseReservationDate ⟨2024, 2, 15⟩ "february 30").date =
      some (rollForward ⟨2024, 2, 15⟩
        (mkDate (⟨2024, 2, 15⟩ : CivilDate).year ((1 : Nat) : Int) 30)) :=
  (overflow_normalization ⟨2024, 2, 15⟩ "february 30" 1 30).1 (by decide)

/-- **C6**: the ordinal suffix produced by `getOrdinal` follows the
standard English rule (stated by `specOrdinalSuffix`) on every day number
that can appear (1-31), and every valid result is formatted as
`"<full weekday name>, <full month name> <day><ordinal suffix>"` with the
day in 1-31. -/
theorem ordinal_formatting (today : CivilDate) (hv : ValidDate today)
    (s : String) :
    (∀ n : Nat, n < 32 → 1 ≤ n →
      getOrdinal n = toString n ++ specOrdinalSuffix n) ∧
    ((parseReservationDate today s).isValid = true →
      ∃ t, (parseReservationDate today s).date = some t ∧
        1 ≤ t.day ∧ t.day ≤ 31 ∧
        (parseReservationDate today s).formatted =
          dayNames.getD (getDay t) "" ++ ", " ++ monthNames.getD t.month "" ++
            " " ++ getOrdinal t.day) := by
  constructor
  · decide
  · intro hval
    rcases hct : computeTarget today (normChars s) with _ | t
    · rw [parse_eq_of_target_none today s hct] at hval
      cases hval
    · have hvt := computeTarget_valid today _ t hv hct
      refine ⟨t, ?_, hvt.2.1, le_trans hvt.2.2 (daysInMonth_le_31 _ _), ?_⟩
      · rw [parse_eq_of_target_some today s _ hct]
      · rw [parse_eq_of_target_some today s _ hct]

/-- Witness for **C6** with the valid result of "today" at 2024-03-15. -/
theorem ordinal_formatting_witness :
    ∃ t, (parseReservationDate ⟨2024, 2, 15⟩ "today").date = some t ∧
      1 ≤ t.day ∧ t.day ≤ 31 ∧
      (parseReservationDate ⟨2024, 2, 15⟩ "today").formatted =
        dayNames.getD (getDay t) "" ++ ", " ++ monthNames.getD t.month "" ++
          " " ++ getOrdinal t.day :=
  (ordinal_formatting ⟨2024, 2, 15⟩ (by decide) "today").2
    (by rw [parse_eq_of_target_some ⟨2024, 2, 15⟩ "today" ⟨2024, 2, 15⟩ rfl])
